import Mathlib

set_option maxRecDepth 8000

/-!
Shallow embedding of the two core mechanisms of `src/bankbotserver.js`:

* the poll-to-completion gate: `waitForMetadefenderScan` (lines 656-686) and
  `scanFileWithMetadefender` (lines 614-653), together with the
  `/scan-and-upload` lifecycle handler (lines 688-732);
* the SSE streaming relay of the `/bankbot-stream` handler (lines 211-284).

External I/O (the Metadefender fetches, the OpenAI stream, the filesystem
calls) is made explicit: each poll query is an entry of a `Nat → PollStep`
oracle, the upstream byte stream of the relay is a list of decoded text
chunks (`List Char`), and filesystem / response-write failures are boolean
parameters of the handler model.  JavaScript truthiness of the inspected
string fields (`data.data_id`, `data.scan_results.scan_all_result_a`) is
modelled by `truthyS`: absent (`none`) or empty strings are falsy.
-/

/-- One poll query against the verdict service: either the fetch (or its
`response.json()`) throws, or it yields a response whose
`scan_results.scan_all_result_a` field is the given `Option String`
(`none` when `scan_results` or the field is absent). -/
inductive PollStep where
  | throwErr
  | resp (result : Option String)
deriving DecidableEq

/-- JavaScript truthiness of an optional string field: absent and empty
strings are falsy. -/
def truthyS : Option String → Bool
  | none => false
  | some s => s ≠ ""

/-- The three ways the polling loop of `waitForMetadefenderScan` can resolve:
`clean` models `{success: true}`, `blocked detail` models
`{success: false, details: data}` (with `detail` the result field of the
response it stopped on), and `timeout` models
`{success: false, error: "Scan timeout: No result received."}`. -/
inductive PollOutcome where
  | clean
  | blocked (detail : Option String)
  | timeout
deriving DecidableEq

/-- Result of running the poll loop, together with the number of queries
that were issued.  `thrown q` records that the `q`-th query (1-based) threw,
propagating the exception out of `waitForMetadefenderScan`. -/
inductive WaitResult where
  | thrown (queries : Nat)
  | returned (outcome : PollOutcome) (queries : Nat)
deriving DecidableEq

/-- The constant `maxAttempts = 20` of `waitForMetadefenderScan`. -/
def maxAttempts : Nat := 20

/-- The `while (attempts < maxAttempts)` loop of `waitForMetadefenderScan`
(lines 662-683), with the current attempt counter and the remaining fuel
`maxAttempts - attempts` made explicit.  Each iteration issues one query;
a truthy result equal to `"No Threat Detected"` returns clean, a truthy
result different from `"In Progress"` returns blocked with the response as
detail, and anything else (absent, empty, or `"In Progress"`) falls through
to the 3000 ms delay and the next attempt. -/
def pollLoop (polls : Nat → PollStep) : Nat → Nat → WaitResult
  | attempts, 0 => .returned .timeout attempts
  | attempts, fuel + 1 =>
    match polls attempts with
    | .throwErr => .thrown (attempts + 1)
    | .resp r =>
      if truthyS r then
        if r = some "No Threat Detected" then .returned .clean (attempts + 1)
        else if r ≠ some "In Progress" then .returned (.blocked r) (attempts + 1)
        else pollLoop polls (attempts + 1) fuel
      else pollLoop polls (attempts + 1) fuel

/-- Function `waitForMetadefenderScan` (lines 656-686): run the poll loop from
attempt 0 with budget `maxAttempts`. -/
def waitForMetadefenderScan (polls : Nat → PollStep) : WaitResult :=
  pollLoop polls 0 maxAttempts

/-- The submission step of `scanFileWithMetadefender`: the upload fetch
either throws or yields a response whose `data_id` field is the given
optional string. -/
inductive SubmitStep where
  | throwErr
  | resp (dataId : Option String)
deriving DecidableEq

/-- The `details` payload attached to a failure result of
`scanFileWithMetadefender`: the submit response (when no `data_id` came
back), the poll response the loop blocked on, or the caught exception. -/
inductive ScanDetail where
  | submitResp (dataId : Option String)
  | pollResp (result : Option String)
  | exn
deriving DecidableEq

/-- The object `scanFileWithMetadefender` resolves with, as surfaced to the
`/scan-and-upload` client on the 400 path: `{success, error?, details?}`. -/
structure ScanUploadResult where
  success : Bool
  error : Option String
  details : Option ScanDetail
deriving DecidableEq

/-- Function `scanFileWithMetadefender` (lines 614-653).  Note the timeout case: the
loop's own `{success: false, error: "Scan timeout: No result received."}`
object carries no `details` field, and the function rebuilds its result as
`{success: false, error: "File is infected!", details: scanResult.details}`,
so a timeout surfaces with the infected error label and an absent details
field. -/
def scanFileWithMetadefender (submit : SubmitStep) (polls : Nat → PollStep) :
    ScanUploadResult :=
  match submit with
  | .throwErr => ⟨false, some "Error scanning file.", some .exn⟩
  | .resp dataId =>
    if truthyS dataId then
      match waitForMetadefenderScan polls with
      | .thrown _ => ⟨false, some "Error scanning file.", some .exn⟩
      | .returned .clean _ => ⟨true, none, none⟩
      | .returned (.blocked r) _ =>
          ⟨false, some "File is infected!", some (.pollResp r)⟩
      | .returned .timeout _ => ⟨false, some "File is infected!", none⟩
    else ⟨false, some "Failed to get scan ID", some (.submitResp dataId)⟩

/-- Observable outcome of one run of the `/scan-and-upload` handler:
the HTTP status sent, the body on the 400 path (the full scan result),
whether the staged temp file still exists when the handler returns, how
many times the delete-temp-file block ran, and how many `unlinkSync`
calls were issued. -/
structure UploadHandlerResult where
  status : Nat
  body : Option ScanUploadResult
  fileExists : Bool
  deletionBlocks : Nat
  unlinkCalls : Nat
deriving DecidableEq

/-- The `/scan-and-upload` handler (lines 688-732).  `hasFile` is
`req.file` truthiness, `scanResult` the (total, never-throwing) result of
`scanFileWithMetadefender`, `exists0` the `fs.existsSync` answer at cleanup
time, `unlinkFails` whether `fs.unlinkSync` throws when invoked, and
`respondFails` whether writing the primary response throws.  On the
non-success path the deletion block is wrapped in its own try/catch (lines
703-710), so a deletion error is logged and the 400 response still goes
out; on the clean path (lines 719-724) the deletion is unguarded, so an
unlink error escapes to the outer catch and the client gets a 500. -/
def scanAndUpload (hasFile : Bool) (scanResult : ScanUploadResult)
    (exists0 unlinkFails respondFails : Bool) : UploadHandlerResult :=
  if hasFile then
    if scanResult.success then
      if exists0 then
        if unlinkFails then ⟨500, none, true, 1, 1⟩
        else if respondFails then ⟨500, none, false, 1, 1⟩
        else ⟨200, none, false, 1, 1⟩
      else
        if respondFails then ⟨500, none, false, 1, 0⟩
        else ⟨200, none, false, 1, 0⟩
    else
      if exists0 then
        if unlinkFails then
          if respondFails then ⟨500, none, true, 1, 1⟩
          else ⟨400, some scanResult, true, 1, 1⟩
        else
          if respondFails then ⟨500, none, false, 1, 1⟩
          else ⟨400, some scanResult, false, 1, 1⟩
      else
        if respondFails then ⟨500, none, false, 1, 0⟩
        else ⟨400, some scanResult, false, 1, 0⟩
  else ⟨400, none, exists0, 0, 0⟩

/-- An event written to the outward SSE channel by the `/bankbot-stream`
handler: a token frame `data: {"response": ...}`, the terminal
`data: [DONE]` frame, or an error frame `data: {"error": ...}`. -/
inductive RelayEvent where
  | token (s : List Char)
  | done
  | error (msg : String)
deriving DecidableEq

/-- Per-connection state of the relay loop: the `buffer` variable holding
the undecoded tail of the most recent partial line, the ordered sequence of
events written so far, and whether the handler has returned after writing
the `[DONE]` frame (`res.end(); return;` on lines 262-263). -/
structure RelayState where
  buffer : List Char
  events : List RelayEvent
  ended : Bool
deriving DecidableEq

/-- Initial state `let buffer = ""` before the read loop (line 250). -/
def initRelayState : RelayState := ⟨[], [], false⟩

/-- Whitespace characters removed by JavaScript `String.prototype.trim`
(the ones that can occur around SSE lines). -/
def isWsChar (c : Char) : Bool :=
  c == ' ' || c == '\t' || c == '\n' || c == '\r'

/-- JavaScript `line.trim()`: strip whitespace from both ends. -/
def trimChars (l : List Char) : List Char :=
  ((l.dropWhile isWsChar).reverse.dropWhile isWsChar).reverse

/-- The split `const lines = buffer.split("\n"); buffer = lines.pop();`
(lines 255-256): the complete lines, paired with the trailing fragment
that stays in the buffer. -/
def splitLines : List Char → List (List Char) × List Char
  | [] => ([], [])
  | c :: cs =>
    if c = '\n' then ([] :: (splitLines cs).1, (splitLines cs).2)
    else
      match (splitLines cs).1 with
      | [] => ([], c :: (splitLines cs).2)
      | l :: ls => ((c :: l) :: ls, (splitLines cs).2)

/-- How the line split of a trailing fragment `f` combines with the line
split of the text that follows it: `f` is glued onto the first line of the
continuation, or onto its fragment when the continuation has no complete
line.  Used to state how `splitLines` acts on concatenations. -/
def mergeSplit (f : List Char) (s : List (List Char) × List Char) :
    List (List Char) × List Char :=
  match s.1 with
  | [] => ([], f ++ s.2)
  | h :: t => ((f ++ h) :: t, s.2)

/-- The event marker `data: ` stripped before JSON decoding. -/
def dataMarker : List Char := "data: ".toList

/-- The sentinel line `data: [DONE]`. -/
def doneLine : List Char := "data: [DONE]".toList

/-- Whether `trimmed` begins with the given marker
(`trimmed.startsWith("data: ")`). -/
def startsWithChars : List Char → List Char → Bool
  | [], _ => true
  | _ :: _, [] => false
  | p :: ps, c :: cs => p == c && startsWithChars ps cs

/-- What the body of the `for (const line of lines)` loop does with one
complete line. -/
inductive LineAct where
  | skip
  | finish
  | emit (s : List Char)
deriving DecidableEq

/-- One iteration of the line loop (lines 257-275): trim; skip blank lines;
return on the sentinel; on a `data: ` line, strip the marker and decode.
`decode` stands for `JSON.parse` plus the
`jsonData.choices && jsonData.choices[0].delta?.content` truthiness check
(platform library code, not in `src/`): it yields `some s` when the payload
parses and carries a non-empty token delta `s`, and `none` when parsing
throws (caught and logged, line 272-274) or the delta content is absent or
empty — all of which make the loop move on to the next line. -/
def lineAction (decode : List Char → Option (List Char)) (line : List Char) :
    LineAct :=
  if trimChars line = [] then .skip
  else if trimChars line = doneLine then .finish
  else if startsWithChars dataMarker (trimChars line) then
    match decode ((trimChars line).drop dataMarker.length) with
    | some s => .emit s
    | none => .skip
  else .skip

/-- Run the line loop over the complete lines of one chunk.  The sentinel
writes `[DONE]`, ends the response and returns from the handler, so the
remaining lines of the chunk are never looked at. -/
def processLines (decode : List Char → Option (List Char)) :
    List (List Char) → RelayState → RelayState
  | [], st => st
  | line :: rest, st =>
    if st.ended then st
    else
      match lineAction decode line with
      | .skip => processLines decode rest st
      | .finish => { st with events := st.events ++ [.done], ended := true }
      | .emit s => processLines decode rest { st with events := st.events ++ [.token s] }

/-- One iteration of the `while (true)` read loop (lines 251-277) on a
non-final chunk: append the decoded chunk text to the buffer, split off the
complete lines, keep the trailing fragment, and process the lines.  Once
the handler has returned (`ended`), later chunks are never read. -/
def relayChunk (decode : List Char → Option (List Char)) (st : RelayState)
    (chunk : List Char) : RelayState :=
  if st.ended then st
  else
    processLines decode (splitLines (st.buffer ++ chunk)).1
      { st with buffer := (splitLines (st.buffer ++ chunk)).2 }

/-- The whole read loop over the upstream chunk sequence. -/
def relayRun (decode : List Char → Option (List Char))
    (chunks : List (List Char)) : RelayState :=
  chunks.foldl (relayChunk decode) initRelayState

/-- The read loop followed by end-of-stream: `if (done) break;` followed by
`res.end()` (line 278).  The trailing fragment left in the buffer is not
processed. -/
def relayComplete (decode : List Char → Option (List Char))
    (chunks : List (List Char)) : RelayState :=
  { relayRun decode chunks with ended := true }

/-- The JSON payload of the `Token("Hello")` scenario line:
`{"choices":[{"delta":{"content":"Hello"}}]}`. -/
def helloPayload : List Char :=
  "\x7b\"choices\":[\x7b\"delta\":\x7b\"content\":\"Hello\"\x7d\x7d]\x7d".toList

/-- The complete scenario line `data: {"choices":[{"delta":{"content":"Hello"}}]}`. -/
def helloLine : List Char := dataMarker ++ helloPayload

/-- The full logical event text of the scenario: the line followed by the
two newlines of the SSE frame. -/
def helloStream : List Char := helloLine ++ "\n\n".toList

/-- Modelled from the spec: a concrete decoder standing in for `JSON.parse`
plus the delta-content access on the payloads exercised by the spec's relay
scenarios.  It recognises the scenario payload and yields its token text;
every other payload (in particular malformed JSON, on which `JSON.parse`
throws) yields `none`. -/
def sampleDecode (p : List Char) : Option (List Char) :=
  if p = helloPayload then some "Hello".toList else none

/-- A malformed payload line for the decode-failure scenario:
`data: {malformed`. -/
def badLine : List Char := "data: \x7bmalformed".toList

/-- Upstream behaviour of the OpenAI call made by `/bankbot-stream`:
the fetch itself rejects, the response arrives with `!response.ok`
(carrying the error body text and the status text), or a stream of chunks
arrives, optionally ending in a mid-stream read failure (`readFail`) that
the catch block turns into an error frame. -/
inductive Upstream where
  | netErr (msg : String)
  | httpErr (errBody statusText : String)
  | stream (chunks : List (List Char)) (readFail : Option String)

/-- Observable outcome of one `/bankbot-stream` request: the HTTP status,
whether the `text/event-stream` headers were set and flushed, and the
ordered event frames written to the body. -/
structure StreamResponse where
  status : Nat
  sse : Bool
  events : List RelayEvent
deriving DecidableEq

/-- The `/bankbot-stream` handler (lines 211-284).  A falsy `message`
(absent or empty) is answered `400` before any header is written.
Otherwise the SSE headers are set and flushed (lines 218-221), fixing the
status at 200, before the upstream request is even opened, so every
upstream failure — the fetch rejecting, a non-ok backend status (which
line 244 turns into a thrown `OpenAI Error: ...`), or a mid-stream read
failure — is delivered by the catch block (lines 279-283) as a
`data: {"error": ...}` frame inside the already-open 200 stream.  A read
failure can only surface when the handler has not already returned at the
sentinel. -/
def bankbotStream (message : Option String) (up : Upstream)
    (decode : List Char → Option (List Char)) : StreamResponse :=
  match message with
  | none => ⟨400, false, []⟩
  | some m =>
    if m = "" then ⟨400, false, []⟩
    else
      match up with
      | .netErr msg => ⟨200, true, [.error msg]⟩
      | .httpErr errBody statusText =>
          ⟨200, true,
            [.error ("OpenAI Error: " ++ (if errBody = "" then statusText else errBody))]⟩
      | .stream chunks readFail =>
          if (relayRun decode chunks).ended then
            ⟨200, true, (relayRun decode chunks).events⟩
          else
            match readFail with
            | some msg => ⟨200, true, (relayRun decode chunks).events ++ [.error msg]⟩
            | none => ⟨200, true, (relayRun decode chunks).events⟩

/-- A relay event is terminal when it is the `[DONE]` frame or an error
frame. -/
def terminalEv : RelayEvent → Bool
  | .token _ => false
  | .done => true
  | .error _ => true

/-- The client-observable part of a relay state: the events written and
whether the handler has closed the channel.  (The buffer left behind after
the handler returns at the sentinel is dead state.) -/
def obsRelay (st : RelayState) : List RelayEvent × Bool :=
  (st.events, st.ended)

/-- A poll oracle whose first response carries a present-but-empty result
field and that reports `"In Progress"` forever after. -/
def emptyResultPolls : Nat → PollStep := fun i =>
  if i = 0 then .resp (some "") else .resp (some "In Progress")

/-- A poll oracle that reports `"In Progress"` on attempt 1 and an explicit
non-clean verdict from attempt 2 on. -/
def blockedAtTwoPolls : Nat → PollStep := fun i =>
  if i = 0 then .resp (some "In Progress") else .resp (some "Infected")

/-- The scan result of a clean verdict, `{success: true}`. -/
def cleanScanResult : ScanUploadResult := ⟨true, none, none⟩

/-- The scan result surfaced for a blocked verdict. -/
def blockedScanResult : ScanUploadResult :=
  ⟨false, some "File is infected!", some (.pollResp (some "Infected"))⟩

/-- If every queried response up to the budget is non-terminal (absent
result field or the in-progress sentinel), the poll loop runs through its
whole fuel, issuing one query per attempt, and times out. -/
theorem pollLoop_timeout (polls : Nat → PollStep) :
    ∀ fuel a : Nat,
      (∀ i, a ≤ i → i < a + fuel →
        polls i = .resp none ∨ polls i = .resp (some "In Progress")) →
      pollLoop polls a fuel = .returned .timeout (a + fuel) := by
  intro fuel
  induction fuel with
  | zero => intro a _; simp [pollLoop]
  | succ n ih =>
    intro a h
    have ha := h a (Nat.le_refl a) (by omega)
    have hrec : pollLoop polls (a + 1) n = .returned .timeout (a + 1 + n) :=
      ih (a + 1) (fun i h1 h2 => h i (by omega) (by omega))
    have hn : a + 1 + n = a + (n + 1) := by omega
    rcases ha with ha | ha <;> simp [pollLoop, ha, truthyS, hrec, hn]

/-- Claim C2: when the verdict service never returns a terminal result
(every poll response lacks the result field or reports the in-progress
sentinel), `waitForMetadefenderScan` issues exactly `maxAttempts` (20)
queries — never fewer, never more — and returns the timeout outcome. -/
theorem c2_timeout_exactly_max_attempts (polls : Nat → PollStep)
    (h : ∀ i, i < maxAttempts →
      polls i = .resp none ∨ polls i = .resp (some "In Progress")) :
    waitForMetadefenderScan polls = .returned .timeout maxAttempts := by
  have := pollLoop_timeout polls maxAttempts 0 (fun i _ h2 => h i (by omega))
  simpa [waitForMetadefenderScan] using this

theorem c2_timeout_exactly_max_attempts_witness :
    waitForMetadefenderScan (fun _ => PollStep.resp (some "In Progress"))
      = .returned .timeout maxAttempts :=
  c2_timeout_exactly_max_attempts _ (fun _ _ => Or.inr rfl)

/-- If attempts before `k` are non-terminal and attempt `k` (0-based)
returns a truthy result that is neither sentinel, the loop stops at that
attempt with the blocked outcome, having issued `k + 1` queries. -/
theorem pollLoop_blocked (polls : Nat → PollStep) (s : String)
    (h1 : s ≠ "") (h2 : s ≠ "No Threat Detected") (h3 : s ≠ "In Progress") :
    ∀ fuel a k : Nat, a ≤ k → k < a + fuel →
      (∀ i, a ≤ i → i < k →
        polls i = .resp none ∨ polls i = .resp (some "In Progress")) →
      polls k = .resp (some s) →
      pollLoop polls a fuel = .returned (.blocked (some s)) (k + 1) := by
  intro fuel
  induction fuel with
  | zero => intro a k hak hk; omega
  | succ n ih =>
    intro a k hak hk hpre hres
    rcases Nat.eq_or_lt_of_le hak with hae | halt
    · subst hae
      simp [pollLoop, hres, truthyS, h1, h2, h3]
    · have hpa := hpre a (Nat.le_refl a) halt
      have hrec : pollLoop polls (a + 1) n = .returned (.blocked (some s)) (k + 1) :=
        ih (a + 1) k (by omega) (by omega) (fun i hi1 hi2 => hpre i (by omega) hi2) hres
      rcases hpa with hpa | hpa <;> simp [pollLoop, hpa, truthyS, hrec]

/-- Claim C3 (amended): when the verdict service returns, on attempt `k + 1`
(1-based, within budget), a result that is present and NON-EMPTY and is
neither the clean sentinel nor the in-progress sentinel, the gate returns
the blocked outcome carrying that response at that attempt, issuing exactly
`k + 1` queries and never performing the next attempt.  (The unamended
claim, which asks this of every present result, fails on the empty string:
JavaScript truthiness makes the loop treat a present-but-empty result field
as absent and keep polling — see the counterexample.) -/
theorem c3_blocked_stops_at_attempt_k (polls : Nat → PollStep) (k : Nat) (s : String)
    (hk : k < maxAttempts)
    (hpre : ∀ i, i < k →
      polls i = .resp none ∨ polls i = .resp (some "In Progress"))
    (hres : polls k = .resp (some s))
    (h1 : s ≠ "") (h2 : s ≠ "No Threat Detected") (h3 : s ≠ "In Progress") :
    waitForMetadefenderScan polls = .returned (.blocked (some s)) (k + 1) :=
  pollLoop_blocked polls s h1 h2 h3 maxAttempts 0 k (Nat.zero_le k) (by omega)
    (fun i _ hi => hpre i hi) hres

theorem c3_blocked_stops_at_attempt_k_witness :
    waitForMetadefenderScan blockedAtTwoPolls
      = .returned (.blocked (some "Infected")) 2 :=
  c3_blocked_stops_at_attempt_k blockedAtTwoPolls 1 "Infected" (by decide)
    (fun i hi => by
      have h0 : i = 0 := by omega
      subst h0
      exact Or.inr rfl)
    rfl (by decide) (by decide) (by decide)

/-- Claim C3 counterexample: on a first response whose result field is
present but empty, the code does not block at attempt 1 — truthiness sends
it back into the loop, and with only in-progress responses afterwards it
times out after all 20 queries. -/
theorem c3_present_empty_result_counterexample :
    waitForMetadefenderScan emptyResultPolls = .returned .timeout maxAttempts
  ∧ waitForMetadefenderScan emptyResultPolls ≠ .returned (.blocked (some "")) 1 := by
  decide

/-- Claim C4: on a poll stream that never terminates (timeout), the result
`scanFileWithMetadefender` surfaces carries `error: "File is infected!"`
and no details — the same error label as an explicit blocked verdict, with
the loop's own `"Scan timeout: No result received."` message discarded.
The claim says a timeout is surfaced as distinct from an explicit
rejection; the code labels both as infected. -/
theorem c4_timeout_surfaced_as_infected :
    scanFileWithMetadefender (.resp (some "abc")) (fun _ => .resp (some "In Progress"))
      = ⟨false, some "File is infected!", none⟩
  ∧ (scanFileWithMetadefender (.resp (some "abc")) (fun _ => .resp (some "In Progress"))).error
      = (scanFileWithMetadefender (.resp (some "abc")) (fun _ => .resp (some "Infected"))).error := by
  decide

/-- Claim C1: in every execution of the `/scan-and-upload` handler on an
uploaded file (staged file present, `unlinkSync` itself not failing — the
environmental assumption under which "removed" is meaningful), the staged
file no longer exists when the handler returns, and the delete-temp-file
block runs exactly once, on every path: submission failure, blocked
verdict, timeout, transport exceptions (all of which
`scanFileWithMetadefender` converts into a non-success `scanResult`, since
it never throws), and a thrown exception while writing the response. -/
theorem c1_release_on_every_path (scanResult : ScanUploadResult) (respondFails : Bool) :
    (scanAndUpload true scanResult true false respondFails).fileExists = false
  ∧ (scanAndUpload true scanResult true false respondFails).deletionBlocks = 1
  ∧ (scanAndUpload true scanResult true false respondFails).unlinkCalls = 1 := by
  rcases scanResult with ⟨s, e, d⟩
  cases s <;> cases respondFails <;> simp [scanAndUpload]

theorem c1_release_on_every_path_witness :
    (scanAndUpload true blockedScanResult true false false).fileExists = false
  ∧ (scanAndUpload true blockedScanResult true false false).deletionBlocks = 1
  ∧ (scanAndUpload true blockedScanResult true false false).unlinkCalls = 1 :=
  c1_release_on_every_path blockedScanResult false

/-- Claim C9 counterexample: on the clean path the deletion is not guarded,
so when `unlinkSync` fails after a clean verdict the cleanup failure is NOT
logged-only — it escapes to the outer catch and the client receives a 500
instead of the success response determined by the scan outcome. -/
theorem c9_clean_cleanup_failure_counterexample :
    (scanAndUpload true cleanScanResult true true false).status = 500
  ∧ (scanAndUpload true cleanScanResult true true false).status ≠ 200 := by
  decide

/-- Claim C9 (amended): only on the non-success path is a cleanup failure
logged-only and masked from the client: there the handler still answers 400
with the scan result as body even though the staged file could not be
deleted.  On the clean path a failed deletion surfaces as a 500 (see the
counterexample). -/
theorem c9_cleanup_failure_logged_on_reject (scanResult : ScanUploadResult)
    (h : scanResult.success = false) :
    (scanAndUpload true scanResult true true false).status = 400
  ∧ (scanAndUpload true scanResult true true false).body = some scanResult
  ∧ (scanAndUpload true scanResult true true false).fileExists = true := by
  simp [scanAndUpload, h]

theorem c9_cleanup_failure_logged_on_reject_witness :
    (scanAndUpload true blockedScanResult true true false).status = 400
  ∧ (scanAndUpload true blockedScanResult true true false).body = some blockedScanResult
  ∧ (scanAndUpload true blockedScanResult true true false).fileExists = true :=
  c9_cleanup_failure_logged_on_reject blockedScanResult rfl

/-- A chunk with no newline splits into no complete line and itself as the
fragment. -/
theorem splitLines_noNl (l : List Char) (h : '\n' ∉ l) : splitLines l = ([], l) := by
  induction l with
  | nil => rfl
  | cons c cs ih =>
    have hc : ¬ c = '\n' := fun hc => h (hc ▸ List.mem_cons_self c cs)
    have hcs : '\n' ∉ cs := fun hm => h (List.mem_cons_of_mem c hm)
    simp [splitLines, hc, ih hcs]

/-- The fragment kept in the buffer never contains a newline. -/
theorem splitLines_frag_noNl (l : List Char) : '\n' ∉ (splitLines l).2 := by
  induction l with
  | nil => simp [splitLines]
  | cons c cs ih =>
    by_cases hc : c = '\n'
    · simp [splitLines, hc, ih]
    · have hcn : ¬ '\n' = c := fun hh => hc hh.symm
      cases h1 : (splitLines cs).1 with
      | nil =>
        simp only [splitLines, hc, if_false, h1]
        simp [List.mem_cons, ih, hcn]
      | cons l ls => simp [splitLines, hc, h1, ih]

/-- How `splitLines` acts on a concatenation: the complete lines of `u`
followed by the merge of `u`'s fragment with the split of `v`. -/
theorem splitLines_append (u v : List Char) :
    splitLines (u ++ v) =
      ((splitLines u).1 ++ (mergeSplit (splitLines u).2 (splitLines v)).1,
        (mergeSplit (splitLines u).2 (splitLines v)).2) := by
  induction u with
  | nil =>
    rcases hsv : splitLines v with ⟨lv, fv⟩
    simp only [List.nil_append, hsv, splitLines]
    cases lv <;> simp [mergeSplit]
  | cons c cs ih =>
    by_cases hc : c = '\n'
    · subst hc
      simp [splitLines, ih]
    · rcases hsc : splitLines cs with ⟨lc, fc⟩
      rcases hsv : splitLines v with ⟨lv, fv⟩
      rw [hsc, hsv] at ih
      simp only [mergeSplit] at ih
      cases lc with
      | nil =>
        cases lv with
        | nil =>
          simp only [List.nil_append] at ih
          simp [List.cons_append, splitLines, hc, hsc, hsv, ih, mergeSplit]
        | cons hv tv =>
          simp only [List.nil_append] at ih
          simp [List.cons_append, splitLines, hc, hsc, hsv, ih, mergeSplit]
      | cons h t =>
        simp [List.cons_append, splitLines, hc, hsc, hsv, ih, mergeSplit]

/-- Once the handler has returned at the sentinel, remaining lines are
never processed. -/
theorem processLines_ended (d : List Char → Option (List Char))
    (ls : List (List Char)) (st : RelayState) (h : st.ended = true) :
    processLines d ls st = st := by
  cases ls <;> simp [processLines, h]

/-- The line loop never touches the buffer. -/
theorem processLines_buffer_eq (d : List Char → Option (List Char))
    (ls : List (List Char)) (st : RelayState) :
    (processLines d ls st).buffer = st.buffer := by
  induction ls generalizing st with
  | nil => rfl
  | cons l rest ih =>
    by_cases he : st.ended = true
    · simp [processLines, he]
    · have he' : st.ended = false := by simpa using he
      simp only [processLines, he', Bool.false_eq_true, if_false]
      cases lineAction d l <;> simp [ih]

/-- The line loop does not depend on the buffer either: setting the buffer
first commutes with processing. -/
theorem processLines_set_buffer (d : List Char → Option (List Char))
    (ls : List (List Char)) (st : RelayState) (x : List Char) :
    processLines d ls { st with buffer := x } =
      { processLines d ls st with buffer := x } := by
  induction ls generalizing st with
  | nil => rfl
  | cons l rest ih =>
    rcases st with ⟨sb, sev, sen⟩
    cases sen with
    | true => simp [processLines]
    | false =>
      show processLines d (l :: rest) ⟨x, sev, false⟩ = _
      simp only [processLines, Bool.false_eq_true, if_false]
      cases hla : lineAction d l with
      | skip => exact ih ⟨sb, sev, false⟩
      | finish => rfl
      | emit s => exact ih ⟨sb, sev ++ [RelayEvent.token s], false⟩

/-- Processing a concatenation of line lists is processing them in turn. -/
theorem processLines_append (d : List Char → Option (List Char))
    (xs ys : List (List Char)) (st : RelayState) :
    processLines d (xs ++ ys) st = processLines d ys (processLines d xs st) := by
  induction xs generalizing st with
  | nil => rfl
  | cons l rest ih =>
    by_cases he : st.ended = true
    · simp [processLines, he, processLines_ended]
    · have he' : st.ended = false := by simpa using he
      simp only [List.cons_append, processLines, he', Bool.false_eq_true, if_false]
      cases lineAction d l <;> simp [ih, processLines_ended]

/-- A returned handler ignores later chunks. -/
theorem relayChunk_ended (d : List Char → Option (List Char)) (st : RelayState)
    (c : List Char) (h : st.ended = true) : relayChunk d st c = st := by
  simp [relayChunk, h]

/-- The buffer invariant: after any chunk, the buffer holds a fragment with
no newline in it. -/
theorem relayChunk_buffer_noNl (d : List Char → Option (List Char))
    (st : RelayState) (c : List Char) (h : '\n' ∉ st.buffer) :
    '\n' ∉ (relayChunk d st c).buffer := by
  by_cases he : st.ended = true
  · rw [relayChunk_ended d st c he]; exact h
  · have he' : st.ended = false := by simpa using he
    simp only [relayChunk, he', Bool.false_eq_true, if_false, processLines_buffer_eq]
    exact splitLines_frag_noNl _

/-- The observable part of a state ignores the buffer. -/
theorem obsRelay_set_buffer (st : RelayState) (x : List Char) :
    obsRelay { st with buffer := x } = obsRelay st := rfl

/-- Feeding one chunk split in two produces the same observable state as
feeding it whole: the buffered reassembly loses nothing and duplicates
nothing at a chunk boundary. -/
theorem relayChunk_morph (d : List Char → Option (List Char)) (st : RelayState)
    (a b : List Char) :
    obsRelay (relayChunk d st (a ++ b)) =
      obsRelay (relayChunk d (relayChunk d st a) b) := by
  rcases st with ⟨sb, sev, sen⟩
  cases sen with
  | true => simp [relayChunk]
  | false =>
    have hsplit : splitLines (sb ++ (a ++ b)) =
        ((splitLines (sb ++ a)).1 ++
            (mergeSplit (splitLines (sb ++ a)).2 (splitLines b)).1,
          (mergeSplit (splitLines (sb ++ a)).2 (splitLines b)).2) := by
      rw [← List.append_assoc]
      exact splitLines_append (sb ++ a) b
    have hslb : splitLines ((splitLines (sb ++ a)).2 ++ b) =
        ((mergeSplit (splitLines (sb ++ a)).2 (splitLines b)).1,
          (mergeSplit (splitLines (sb ++ a)).2 (splitLines b)).2) := by
      rw [splitLines_append ((splitLines (sb ++ a)).2) b,
        splitLines_noNl _ (splitLines_frag_noNl (sb ++ a))]
      simp
    have hL : relayChunk d ⟨sb, sev, false⟩ (a ++ b) =
        processLines d
          ((splitLines (sb ++ a)).1 ++
            (mergeSplit (splitLines (sb ++ a)).2 (splitLines b)).1)
          ⟨(mergeSplit (splitLines (sb ++ a)).2 (splitLines b)).2, sev, false⟩ := by
      simp only [relayChunk, Bool.false_eq_true, if_false, hsplit]
    have hA : relayChunk d ⟨sb, sev, false⟩ a =
        processLines d (splitLines (sb ++ a)).1
          ⟨(splitLines (sb ++ a)).2, sev, false⟩ := by
      simp only [relayChunk, Bool.false_eq_true, if_false]
    have hset := processLines_set_buffer d (splitLines (sb ++ a)).1
      ⟨(splitLines (sb ++ a)).2, sev, false⟩
      (mergeSplit (splitLines (sb ++ a)).2 (splitLines b)).2
    rw [hL, processLines_append, hset, hA]
    by_cases hP : (processLines d (splitLines (sb ++ a)).1
        ⟨(splitLines (sb ++ a)).2, sev, false⟩).ended = true
    · rw [relayChunk_ended d _ b hP,
        processLines_ended d _ _ (show ({ processLines d (splitLines (sb ++ a)).1
          ⟨(splitLines (sb ++ a)).2, sev, false⟩ with
          buffer := (mergeSplit (splitLines (sb ++ a)).2 (splitLines b)).2 }).ended = true
          from hP)]
      rfl
    · have hP' : (processLines d (splitLines (sb ++ a)).1
          ⟨(splitLines (sb ++ a)).2, sev, false⟩).ended = false := by
        simpa using hP
      have hbuf : (processLines d (splitLines (sb ++ a)).1
          ⟨(splitLines (sb ++ a)).2, sev, false⟩).buffer = (splitLines (sb ++ a)).2 :=
        processLines_buffer_eq d _ _
      have hB : relayChunk d (processLines d (splitLines (sb ++ a)).1
            ⟨(splitLines (sb ++ a)).2, sev, false⟩) b =
          processLines d
            (mergeSplit (splitLines (sb ++ a)).2 (splitLines b)).1
            { processLines d (splitLines (sb ++ a)).1
                ⟨(splitLines (sb ++ a)).2, sev, false⟩ with
              buffer := (mergeSplit (splitLines (sb ++ a)).2 (splitLines b)).2 } := by
        simp only [relayChunk, hP', Bool.false_eq_true, if_false, hbuf, hslb]
      rw [hB]

/-- Running the loop over any chunk list is observably the same as running
it over the single concatenated chunk. -/
theorem relayFold_flatten (d : List Char → Option (List Char)) :
    ∀ (cs : List (List Char)) (st : RelayState), '\n' ∉ st.buffer →
      obsRelay (List.foldl (relayChunk d) st cs) =
        obsRelay (relayChunk d st cs.flatten) := by
  intro cs
  induction cs with
  | nil =>
    intro st h
    by_cases he : st.ended = true
    · rw [relayChunk_ended d st _ he, List.foldl_nil]
    · have he' : st.ended = false := by simpa using he
      simp only [List.foldl_nil, List.flatten_nil, relayChunk, he',
        Bool.false_eq_true, if_false, List.append_nil, splitLines_noNl st.buffer h,
        processLines]
      simp [obsRelay, he']
  | cons c cs ih =>
    intro st h
    calc obsRelay (List.foldl (relayChunk d) st (c :: cs))
        = obsRelay (List.foldl (relayChunk d) (relayChunk d st c) cs) := rfl
      _ = obsRelay (relayChunk d (relayChunk d st c) cs.flatten) :=
          ih (relayChunk d st c) (relayChunk_buffer_noNl d st c h)
      _ = obsRelay (relayChunk d st (c ++ cs.flatten)) :=
          (relayChunk_morph d st c cs.flatten).symm
      _ = obsRelay (relayChunk d st (c :: cs).flatten) := rfl

/-- The whole relay run over any chunking equals the run over the single
flattened chunk, observably. -/
theorem relayRun_flatten (d : List Char → Option (List Char))
    (cs : List (List Char)) :
    obsRelay (relayRun d cs) = obsRelay (relayChunk d initRelayState cs.flatten) :=
  relayFold_flatten d cs initRelayState (by simp [initRelayState])

/-- Claim C5: for every way of splitting the single logical event
`data: {"choices":[{"delta":{"content":"Hello"}}]}` followed by its two
newlines into upstream chunks, the relay emits exactly one
`Token("Hello")` event — the event sequence is invariant under
re-chunking, with no loss or duplication at chunk boundaries. -/
theorem c5_rechunk_invariance (chunks : List (List Char))
    (h : chunks.flatten = helloStream) :
    (relayRun sampleDecode chunks).events = [RelayEvent.token "Hello".toList] := by
  have hobs := relayRun_flatten sampleDecode chunks
  have hev : (relayRun sampleDecode chunks).events
      = (relayChunk sampleDecode initRelayState chunks.flatten).events :=
    congrArg Prod.fst hobs
  rw [hev, h]
  decide

theorem c5_rechunk_invariance_witness :
    (relayRun sampleDecode
      ["data: \x7b\"choices\":[\x7b\"delta\":\x7b\"content\":\"He".toList,
        "llo\"\x7d\x7d]\x7d\n\n".toList]).events
      = [RelayEvent.token "Hello".toList] :=
  c5_rechunk_invariance _ (by decide)

/-- Relay loop invariant: while the handler has not returned, every event
written so far is a token frame; once it has returned, the last event is
the `[DONE]` frame and every earlier event is a token frame. -/
def relayInv (st : RelayState) : Prop :=
  (st.ended = false → ∀ e ∈ st.events, terminalEv e = false)
  ∧ (st.ended = true → st.events.getLast? = some RelayEvent.done
      ∧ ∀ e ∈ st.events.dropLast, terminalEv e = false)

theorem processLines_inv (d : List Char → Option (List Char))
    (ls : List (List Char)) (st : RelayState) (h : relayInv st) :
    relayInv (processLines d ls st) := by
  induction ls generalizing st with
  | nil => exact h
  | cons l rest ih =>
    rcases st with ⟨sb, sev, sen⟩
    cases sen with
    | true => simpa [processLines] using h
    | false =>
      simp only [processLines, Bool.false_eq_true, if_false]
      cases lineAction d l with
      | skip => exact ih _ h
      | finish =>
        constructor
        · intro hcontra; simp at hcontra
        · intro _
          refine ⟨List.getLast?_concat _, ?_⟩
          rw [List.dropLast_concat]
          exact h.1 rfl
      | emit s =>
        apply ih
        constructor
        · intro _ e he
          rcases List.mem_append.mp he with he | he
          · exact h.1 rfl e he
          · simp at he; subst he; rfl
        · intro hcontra; simp at hcontra

theorem relayChunk_inv (d : List Char → Option (List Char)) (st : RelayState)
    (c : List Char) (h : relayInv st) : relayInv (relayChunk d st c) := by
  rcases st with ⟨sb, sev, sen⟩
  cases sen with
  | true => simpa [relayChunk] using h
  | false =>
    simp only [relayChunk, Bool.false_eq_true, if_false]
    exact processLines_inv d _ _ h

theorem relayRun_inv (d : List Char → Option (List Char))
    (cs : List (List Char)) : relayInv (relayRun d cs) := by
  have hstep : ∀ (l : List (List Char)) (st : RelayState), relayInv st →
      relayInv (List.foldl (relayChunk d) st l) := by
    intro l
    induction l with
    | nil => intro st h; exact h
    | cons c l ih => intro st h; exact ih _ (relayChunk_inv d st c h)
  refine hstep cs initRelayState ⟨?_, ?_⟩
  · intro _ e he; simp [initRelayState] at he
  · intro hcontra; simp [initRelayState] at hcontra

/-- The buffer of any reachable relay state is newline-free. -/
theorem relayFold_buffer_noNl (d : List Char → Option (List Char)) :
    ∀ (cs : List (List Char)) (st : RelayState), '\n' ∉ st.buffer →
      '\n' ∉ (List.foldl (relayChunk d) st cs).buffer := by
  intro cs
  induction cs with
  | nil => intro st h; exact h
  | cons c cs ih => intro st h; exact ih _ (relayChunk_buffer_noNl d st c h)

theorem relayRun_buffer_noNl (d : List Char → Option (List Char))
    (cs : List (List Char)) : '\n' ∉ (relayRun d cs).buffer :=
  relayFold_buffer_noNl d cs initRelayState (by simp [initRelayState])

/-- After the handler has returned, further upstream chunks change
nothing. -/
theorem relayFold_ended (d : List Char → Option (List Char))
    (cs : List (List Char)) (st : RelayState) (h : st.ended = true) :
    List.foldl (relayChunk d) st cs = st := by
  induction cs with
  | nil => rfl
  | cons c cs ih => rw [List.foldl_cons, relayChunk_ended d st c h, ih]

theorem relayRun_done_ended (d : List Char → Option (List Char))
    (cs : List (List Char)) (h : RelayEvent.done ∈ (relayRun d cs).events) :
    (relayRun d cs).ended = true := by
  cases he : (relayRun d cs).ended with
  | true => rfl
  | false =>
    have := (relayRun_inv d cs).1 he RelayEvent.done h
    simp [terminalEv] at this

/-- A state satisfying the invariant has written the `[DONE]` frame at most
once. -/
theorem relayInv_count_done (st : RelayState) (h : relayInv st) :
    st.events.count RelayEvent.done ≤ 1 := by
  cases he : st.ended with
  | false =>
    have h1 := h.1 he
    have hz : st.events.count RelayEvent.done = 0 := by
      apply List.count_eq_zero.mpr
      intro hmem
      have := h1 _ hmem
      simp [terminalEv] at this
    omega
  | true =>
    obtain ⟨hlast, hdrop⟩ := h.2 he
    have hne : st.events ≠ [] := by
      intro h0; rw [h0] at hlast; simp at hlast
    have hg : st.events.getLast hne = RelayEvent.done := by
      have := List.getLast?_eq_getLast st.events hne
      rw [this] at hlast
      exact Option.some_inj.mp hlast
    have hsplit : st.events = st.events.dropLast ++ [RelayEvent.done] := by
      conv_lhs => rw [← List.dropLast_append_getLast hne]
      rw [hg]
    have hz : st.events.dropLast.count RelayEvent.done = 0 := by
      apply List.count_eq_zero.mpr
      intro hmem
      have := hdrop _ hmem
      simp [terminalEv] at this
    calc st.events.count RelayEvent.done
        = (st.events.dropLast ++ [RelayEvent.done]).count RelayEvent.done := by
          conv_lhs => rw [hsplit]
      _ = st.events.dropLast.count RelayEvent.done
            + [RelayEvent.done].count RelayEvent.done := List.count_append _ _ _
      _ ≤ 1 := by rw [hz]; simp

/-- Claim C6: over any upstream input, the relay writes the `[DONE]` frame
at most once, every event before the last one is a token frame (so a
terminal `Done`/`Error` event, when present, is always last), and once the
sentinel line has been seen the handler has returned: additional upstream
chunks, buffered lines and even a later read failure change nothing. -/
theorem c6_terminal_event_last (d : List Char → Option (List Char))
    (m : Option String) (up : Upstream) (chunks more : List (List Char))
    (rf rf' : Option String) :
    ((bankbotStream m up d).events.count RelayEvent.done ≤ 1)
  ∧ (∀ e ∈ (bankbotStream m up d).events.dropLast, terminalEv e = false)
  ∧ (RelayEvent.done ∈ (bankbotStream m (.stream chunks rf) d).events →
      (bankbotStream m (.stream (chunks ++ more) rf') d).events
        = (bankbotStream m (.stream chunks rf) d).events) := by
  cases m with
  | none =>
    refine ⟨?_, ?_, ?_⟩ <;> simp [bankbotStream]
  | some mv =>
    by_cases hmv : mv = ""
    · refine ⟨?_, ?_, ?_⟩ <;> simp [bankbotStream, hmv]
    · refine ⟨?_, ?_, ?_⟩
      · cases up with
        | netErr msg => simp [bankbotStream, hmv, List.count_cons]
        | httpErr b s => simp [bankbotStream, hmv, List.count_cons]
        | stream ch rf0 =>
          cases hend : (relayRun d ch).ended with
          | true =>
            simp only [bankbotStream, hmv, if_neg hmv, hend, if_true]
            exact relayInv_count_done _ (relayRun_inv d ch)
          | false =>
            have hz : (relayRun d ch).events.count RelayEvent.done = 0 := by
              apply List.count_eq_zero.mpr
              intro hm
              have := (relayRun_inv d ch).1 hend _ hm
              simp [terminalEv] at this
            cases rf0 with
            | none =>
              simp only [bankbotStream, if_neg hmv, hend, Bool.false_eq_true,
                if_false]
              omega
            | some msg =>
              simp only [bankbotStream, if_neg hmv, hend, Bool.false_eq_true,
                if_false]
              rw [List.count_append, hz]
              simp [List.count_cons]
      · cases up with
        | netErr msg => simp [bankbotStream, hmv]
        | httpErr b s => simp [bankbotStream, hmv]
        | stream ch rf0 =>
          cases hend : (relayRun d ch).ended with
          | true =>
            simp only [bankbotStream, if_neg hmv, hend, if_true]
            exact ((relayRun_inv d ch).2 hend).2
          | false =>
            cases rf0 with
            | none =>
              simp only [bankbotStream, if_neg hmv, hend, Bool.false_eq_true,
                if_false]
              intro e he
              exact (relayRun_inv d ch).1 hend e (List.mem_of_mem_dropLast he)
            | some msg =>
              simp only [bankbotStream, if_neg hmv, hend, Bool.false_eq_true,
                if_false, List.dropLast_concat]
              intro e he
              exact (relayRun_inv d ch).1 hend e he
      · intro hdone
        cases hend : (relayRun d chunks).ended with
        | true =>
          have hrr : relayRun d (chunks ++ more) = relayRun d chunks := by
            unfold relayRun
            rw [List.foldl_append]
            exact relayFold_ended d more _ hend
          simp [bankbotStream, hmv, hrr, hend]
        | false =>
          simp only [bankbotStream, if_neg hmv, hend, Bool.false_eq_true,
            if_false] at hdone
          cases rf with
          | none =>
            have := (relayRun_inv d chunks).1 hend _ hdone
            simp [terminalEv] at this
          | some msg =>
            rcases List.mem_append.mp hdone with hm | hm
            · have := (relayRun_inv d chunks).1 hend _ hm
              simp [terminalEv] at this
            · simp at hm

theorem c6_terminal_event_last_witness :
    (bankbotStream (some "hi")
        (.stream (["data: [DONE]\n\n".toList] ++ [helloStream]) (some "late"))
        sampleDecode).events
      = (bankbotStream (some "hi")
          (.stream ["data: [DONE]\n\n".toList] none) sampleDecode).events :=
  (c6_terminal_event_last sampleDecode (some "hi")
    (.stream ["data: [DONE]\n\n".toList] none)
    ["data: [DONE]\n\n".toList] [helloStream] none (some "late")).2.2 (by decide)

/-- JavaScript trim leaves a line alone when its first and last characters are not
whitespace. -/
theorem trimChars_eq_self (a : Char) (mid : List Char) (c : Char)
    (ha : isWsChar a = false) (hc : isWsChar c = false) :
    trimChars (a :: (mid ++ [c])) = a :: (mid ++ [c]) := by
  unfold trimChars
  rw [List.dropWhile_cons]
  simp only [ha, Bool.false_eq_true, if_false]
  have h1 : (a :: (mid ++ [c])).reverse = c :: (mid.reverse ++ [a]) := by
    simp
  rw [h1, List.dropWhile_cons]
  simp only [hc, Bool.false_eq_true, if_false]
  simp

theorem startsWithChars_self_append (u v : List Char) :
    startsWithChars u (u ++ v) = true := by
  induction u with
  | nil => rfl
  | cons a as ih => simp [startsWithChars, ih]

theorem lineAction_nil (d : List Char → Option (List Char)) :
    lineAction d [] = LineAct.skip := rfl

/-- On a line `data: ` ++ payload whose payload is nonempty,
whitespace-free and not `[DONE]`, the loop body strips the marker and
decodes the payload: a decoded token is emitted, a decode failure skips
only that line. -/
theorem lineAction_marker (d : List Char → Option (List Char)) (p : List Char)
    (hp0 : p ≠ []) (hp : ∀ ch ∈ p, isWsChar ch = false)
    (hdone : p ≠ "[DONE]".toList) :
    lineAction d (dataMarker ++ p)
      = match d p with
        | some s => LineAct.emit s
        | none => LineAct.skip := by
  rcases List.eq_nil_or_concat p with rfl | ⟨q, c, hqc⟩
  · exact absurd rfl hp0
  · rw [List.concat_eq_append] at hqc
    subst hqc
    have hc : isWsChar c = false := hp c (by simp)
    have hline : dataMarker ++ (q ++ [c])
        = 'd' :: (("ata: ".toList ++ q) ++ [c]) := by
      rw [show dataMarker = 'd' :: "ata: ".toList from by decide]
      simp
    have htrim : trimChars (dataMarker ++ (q ++ [c])) = dataMarker ++ (q ++ [c]) := by
      rw [hline]
      exact trimChars_eq_self 'd' _ c (by decide) hc
    have hne : dataMarker ++ (q ++ [c]) ≠ [] := by simp [dataMarker]
    have hnotdone : dataMarker ++ (q ++ [c]) ≠ doneLine := by
      rw [show doneLine = dataMarker ++ "[DONE]".toList from by decide]
      intro hcontra
      exact hdone (List.append_cancel_left hcontra)
    have hsw : startsWithChars dataMarker (dataMarker ++ (q ++ [c])) = true :=
      startsWithChars_self_append dataMarker _
    have hdrop : (dataMarker ++ (q ++ [c])).drop dataMarker.length = q ++ [c] :=
      List.drop_left dataMarker _
    unfold lineAction
    rw [htrim, if_neg hne, if_neg hnotdone, hsw, if_pos rfl, hdrop]

/-- Claim C7: a chunk carrying one complete `data: ` line whose payload the
decoder rejects (malformed JSON, on which `JSON.parse` throws and the catch
logs and moves on) followed by one complete valid token line yields exactly
one event — the token of the valid line — and leaves the stream open: only
the single malformed line is skipped. -/
theorem c7_malformed_line_skipped (d : List Char → Option (List Char))
    (p : List Char) (hp0 : p ≠ []) (hp : ∀ ch ∈ p, isWsChar ch = false)
    (hdone : p ≠ "[DONE]".toList) (hbad : d p = none)
    (hgood : d helloPayload = some "Hello".toList) :
    (relayRun d [(dataMarker ++ p) ++ '\n' :: helloStream]).events
      = [RelayEvent.token "Hello".toList]
  ∧ (relayRun d [(dataMarker ++ p) ++ '\n' :: helloStream]).ended = false := by
  have hnl : '\n' ∉ dataMarker ++ p := by
    intro hmem
    rcases List.mem_append.mp hmem with hm | hm
    · exact absurd hm (by decide)
    · have := hp '\n' hm
      simp [isWsChar] at this
  have hsplit : splitLines ((dataMarker ++ p) ++ '\n' :: helloStream)
      = ([dataMarker ++ p, helloLine, []], []) := by
    rw [splitLines_append (dataMarker ++ p) ('\n' :: helloStream),
      splitLines_noNl _ hnl]
    rw [show splitLines ('\n' :: helloStream) = ([[], helloLine, []], [])
      from by decide]
    simp [mergeSplit]
  have hrun : relayRun d [(dataMarker ++ p) ++ '\n' :: helloStream]
      = processLines d [dataMarker ++ p, helloLine, []] ⟨[], [], false⟩ := by
    show relayChunk d initRelayState _ = _
    simp only [relayChunk, initRelayState, Bool.false_eq_true, if_false,
      List.nil_append, hsplit]
  rw [hrun]
  have hact1 : lineAction d (dataMarker ++ p) = LineAct.skip := by
    rw [lineAction_marker d p hp0 hp hdone, hbad]
  have hact2 : lineAction d helloLine = LineAct.emit "Hello".toList := by
    rw [show helloLine = dataMarker ++ helloPayload from rfl,
      lineAction_marker d helloPayload (by decide) (by decide) (by decide),
      hgood]
  simp only [processLines, Bool.false_eq_true, if_false, hact1, hact2,
    lineAction_nil, List.nil_append]
  simp

theorem c7_malformed_line_skipped_witness :
    (relayRun sampleDecode
        [(dataMarker ++ "\x7bmalformed".toList) ++ '\n' :: helloStream]).events
      = [RelayEvent.token "Hello".toList]
  ∧ (relayRun sampleDecode
        [(dataMarker ++ "\x7bmalformed".toList) ++ '\n' :: helloStream]).ended
      = false :=
  c7_malformed_line_skipped sampleDecode "\x7bmalformed".toList (by decide)
    (by decide) (by decide) (by decide) (by decide)

/-- Claim C8 counterexample: when the upstream stream ends while a complete,
decodable event sits in the buffer without a terminating newline, the relay
closes the channel WITHOUT processing that final trailing fragment: no
event is emitted, although the claim says the fragment is still decoded and
its token emitted before close. -/
theorem c8_trailing_fragment_counterexample :
    (relayComplete sampleDecode [helloLine]).events = []
  ∧ sampleDecode helloPayload = some "Hello".toList
  ∧ (relayComplete sampleDecode [helloLine]).ended = true := by decide

/-- Claim C8 (amended): when the upstream ends without the sentinel the
relay does terminate its outward channel, but any final trailing fragment
(a newline-free tail chunk) is discarded undecoded: it never changes the
emitted events. -/
theorem c8_trailing_fragment_dropped (d : List Char → Option (List Char))
    (chunks : List (List Char)) (f : List Char) (hf : '\n' ∉ f) :
    (relayComplete d (chunks ++ [f])).events = (relayComplete d chunks).events
  ∧ (relayComplete d (chunks ++ [f])).ended = true := by
  refine ⟨?_, rfl⟩
  show (relayRun d (chunks ++ [f])).events = (relayRun d chunks).events
  have hstep : relayRun d (chunks ++ [f]) = relayChunk d (relayRun d chunks) f := by
    unfold relayRun
    rw [List.foldl_append]
    rfl
  rw [hstep]
  cases hend : (relayRun d chunks).ended with
  | true => rw [relayChunk_ended d _ f hend]
  | false =>
    have hbf : '\n' ∉ (relayRun d chunks).buffer ++ f := by
      intro hm
      rcases List.mem_append.mp hm with hm | hm
      · exact relayRun_buffer_noNl d chunks hm
      · exact hf hm
    simp only [relayChunk, hend, Bool.false_eq_true, if_false,
      splitLines_noNl _ hbf, processLines]

theorem c8_trailing_fragment_dropped_witness :
    (relayComplete sampleDecode [helloStream, "data: tail".toList]).events
      = (relayComplete sampleDecode [helloStream]).events
  ∧ (relayComplete sampleDecode [helloStream, "data: tail".toList]).ended = true :=
  c8_trailing_fragment_dropped sampleDecode [helloStream] "data: tail".toList
    (by decide)

/-- Claim C10: for every request with a truthy message, the SSE headers are
set and flushed before the upstream request is opened, so the HTTP status
is 200 with text/event-stream for every upstream behaviour; in particular a
non-success backend status before any data is read is surfaced as a
`data: {"error": ...}` frame (the thrown `OpenAI Error` carrying the error
body, or the status text when the body is empty) inside the already-open
200 event stream, never as a non-200 HTTP response. -/
theorem c10_headers_flushed_before_upstream (m : String) (hm : m ≠ "")
    (up : Upstream) (d : List Char → Option (List Char))
    (body statusText : String) :
    (bankbotStream (some m) up d).status = 200
  ∧ (bankbotStream (some m) up d).sse = true
  ∧ (bankbotStream (some m) (.httpErr body statusText) d).events
      = [RelayEvent.error
          ("OpenAI Error: " ++ (if body = "" then statusText else body))] := by
  refine ⟨?_, ?_, ?_⟩
  · cases up with
    | netErr msg => simp [bankbotStream, hm]
    | httpErr b s => simp [bankbotStream, hm]
    | stream ch rf0 =>
      cases hend : (relayRun d ch).ended with
      | true => simp [bankbotStream, hm, hend]
      | false => cases rf0 <;> simp [bankbotStream, hm, hend]
  · cases up with
    | netErr msg => simp [bankbotStream, hm]
    | httpErr b s => simp [bankbotStream, hm]
    | stream ch rf0 =>
      cases hend : (relayRun d ch).ended with
      | true => simp [bankbotStream, hm, hend]
      | false => cases rf0 <;> simp [bankbotStream, hm, hend]
  · simp [bankbotStream, hm]

theorem c10_headers_flushed_before_upstream_witness :
    (bankbotStream (some "hello") (.netErr "socket hang up") sampleDecode).status
      = 200
  ∧ (bankbotStream (some "hello") (.netErr "socket hang up") sampleDecode).sse
      = true
  ∧ (bankbotStream (some "hello")
        (.httpErr "insufficient quota" "Too Many Requests") sampleDecode).events
      = [RelayEvent.error ("OpenAI Error: "
          ++ (if "insufficient quota" = "" then "Too Many Requests"
              else "insufficient quota"))] :=
  c10_headers_flushed_before_upstream "hello" (by decide)
    (.netErr "socket hang up") sampleDecode "insufficient quota"
    "Too Many Requests"
